import Mathlib

/-!
Verification of the asynchronous task execution and status-tracking subsystem
of the Document-Intelligent-System repository (`app/core/task_queue.py`).

The Python module is shallowly embedded:
* `TaskStatus` and `Task` mirror the enum and dataclass of the source.
* Python dictionaries (`self._tasks`, redis hashes) are association lists
  with distinct keys; `alookup` models `d.get(k)`, `aupdate` models the
  mutation `d[k].f = v` (returning `none` for the `KeyError` raised when
  the key is absent), and filtering models `del`.
* `time.time()` values are natural numbers; the wall clock is assumed
  monotone, so every clock read passed into a step is at least the
  system's last observed clock value.
* A submitted callable is abstracted by its outcome: it either returns a
  value (Python `None` included, modelled as `Option V`) or raises a
  failure carrying the text `str(e)`.
-/

namespace DocIntel

/-- The four lifecycle states of `TaskStatus` in `app/core/task_queue.py`. -/
inductive TaskStatus
  | pending
  | processing
  | completed
  | failed
deriving DecidableEq

/-- The string value of each member of `TaskStatus(str, Enum)`. -/
def TaskStatus.value : TaskStatus → String
  | .pending => "pending"
  | .processing => "processing"
  | .completed => "completed"
  | .failed => "failed"

/-- The `Task` dataclass.  `result` is `Optional[Dict]` in the source; the
payload type is opaque here (`V`), and `none` models Python `None` (both the
dataclass default and a callable that returns `None`). -/
structure Task (V : Type) where
  id : String
  status : TaskStatus
  created_at : Nat
  updated_at : Nat
  result : Option V
  error : Option String
deriving DecidableEq

/-- The outcome of running a submitted callable: it returns a value
(possibly Python `None`) or raises a failure whose `str(e)` is the given
string. -/
inductive Outcome (V : Type)
  | ok (r : Option V)
  | raises (e : String)
deriving DecidableEq

/-- The in-memory mapping `self._tasks : Dict[str, Task]`. -/
abbrev Store (V : Type) := List (String × Task V)

/-- Python `dict` lookup `d.get(k)` on an association list. -/
def alookup {α : Type} : List (String × α) → String → Option α
  | [], _ => none
  | p :: ps, k => if p.1 = k then some p.2 else alookup ps k

/-- Python `d[k] = f d[k]` mutation on an association list: replaces the
value at `k`; returns `none` to model the `KeyError` raised when `k` is
absent. -/
def aupdate {α : Type} : List (String × α) → String → (α → α) → Option (List (String × α))
  | [], _, _ => none
  | p :: ps, k, f =>
    if p.1 = k then some ((p.1, f p.2) :: ps)
    else (aupdate ps k f).map (fun r => p :: r)

/-- Python `del d[k]` on an association list. -/
def aerase {α : Type} (l : List (String × α)) (k : String) : List (String × α) :=
  l.filter (fun p => decide (p.1 ≠ k))

@[simp] theorem alookup_nil {α : Type} (k : String) :
    alookup ([] : List (String × α)) k = none := rfl

@[simp] theorem alookup_cons {α : Type} (p : String × α) (ps : List (String × α)) (k : String) :
    alookup (p :: ps) k = if p.1 = k then some p.2 else alookup ps k := rfl

theorem alookup_eq_none_iff {α : Type} (l : List (String × α)) (k : String) :
    alookup l k = none ↔ k ∉ l.map Prod.fst := by
  induction l with
  | nil => simp
  | cons p ps ih =>
    simp only [alookup_cons, List.map_cons, List.mem_cons]
    by_cases h : p.1 = k
    · simp [h]
    · rw [if_neg h, ih]
      constructor
      · intro hn hor
        rcases hor with hor | hor
        · exact h hor.symm
        · exact hn hor
      · intro hn hm
        exact hn (Or.inr hm)

theorem alookup_isSome_mem {α : Type} {l : List (String × α)} {k : String} {v : α}
    (h : alookup l k = some v) : k ∈ l.map Prod.fst := by
  by_contra hmem
  rw [← alookup_eq_none_iff] at hmem
  rw [hmem] at h
  exact Option.noConfusion h

theorem aupdate_eq_none_iff {α : Type} (l : List (String × α)) (k : String) (f : α → α) :
    aupdate l k f = none ↔ alookup l k = none := by
  induction l with
  | nil => simp [aupdate]
  | cons p ps ih =>
    by_cases h : p.1 = k
    · simp [aupdate, alookup, h]
    · simp [aupdate, alookup, h, ih]

theorem aupdate_isSome {α : Type} {l : List (String × α)} {k : String} (f : α → α)
    (h : (alookup l k).isSome) : (aupdate l k f).isSome := by
  rcases ho : aupdate l k f with _ | l'
  · rw [aupdate_eq_none_iff] at ho
    rw [ho] at h
    simp at h
  · simp

theorem aupdate_keys {α : Type} {l l' : List (String × α)} {k : String} {f : α → α}
    (h : aupdate l k f = some l') : l'.map Prod.fst = l.map Prod.fst := by
  induction l generalizing l' with
  | nil => simp [aupdate] at h
  | cons p ps ih =>
    simp only [aupdate] at h
    by_cases hk : p.1 = k
    · rw [if_pos hk] at h
      have h' := Option.some.inj h
      subst h'
      simp
    · rw [if_neg hk] at h
      rcases Option.map_eq_some'.mp h with ⟨r, hr, hl'⟩
      subst hl'
      simp [ih hr]

theorem alookup_aupdate_self {α : Type} {l l' : List (String × α)} {k : String} {f : α → α}
    (h : aupdate l k f = some l') : alookup l' k = (alookup l k).map f := by
  induction l generalizing l' with
  | nil => simp [aupdate] at h
  | cons p ps ih =>
    simp only [aupdate] at h
    by_cases hk : p.1 = k
    · rw [if_pos hk] at h
      have h' := Option.some.inj h
      subst h'
      simp [alookup, hk]
    · rw [if_neg hk] at h
      rcases Option.map_eq_some'.mp h with ⟨r, hr, hl'⟩
      subst hl'
      simp [alookup, hk, ih hr]

theorem alookup_aupdate_ne {α : Type} {l l' : List (String × α)} {k k' : String} {f : α → α}
    (h : aupdate l k f = some l') (hne : k' ≠ k) : alookup l' k' = alookup l k' := by
  induction l generalizing l' with
  | nil => simp [aupdate] at h
  | cons p ps ih =>
    simp only [aupdate] at h
    by_cases hk : p.1 = k
    · rw [if_pos hk] at h
      have h' := Option.some.inj h
      subst h'
      have hne' : ¬ p.1 = k' := by
        rw [hk]
        exact fun hh => hne hh.symm
      simp [alookup, hne']
    · rw [if_neg hk] at h
      rcases Option.map_eq_some'.mp h with ⟨r, hr, hl'⟩
      subst hl'
      simp [alookup, ih hr]

theorem alookup_filter_none {α : Type} {l : List (String × α)} {k : String}
    (q : String × α → Bool) (h : alookup l k = none) : alookup (l.filter q) k = none := by
  induction l with
  | nil => simp
  | cons p ps ih =>
    by_cases hk : p.1 = k
    · simp [alookup, hk] at h
    · simp [alookup, hk] at h
      by_cases hq : q p
      · simp [List.filter_cons, hq, alookup, hk, ih h]
      · simp [List.filter_cons, hq, ih h]

theorem alookup_filter {α : Type} {l : List (String × α)} {k : String}
    (q : String × α → Bool) (hnd : (l.map Prod.fst).Nodup) :
    alookup (l.filter q) k = alookup l k ∨ alookup (l.filter q) k = none := by
  induction l with
  | nil => simp
  | cons p ps ih =>
    simp only [List.map_cons, List.nodup_cons] at hnd
    by_cases hk : p.1 = k
    · by_cases hq : q p
      · left
        simp [List.filter_cons, hq, alookup, hk]
      · right
        have hnone : alookup ps k = none := by
          rw [alookup_eq_none_iff]
          rw [← hk]
          exact hnd.1
        simp [List.filter_cons, hq, alookup_filter_none q hnone]
    · by_cases hq : q p
      · simp [List.filter_cons, hq, alookup, hk]
        exact ih hnd.2
      · simp [List.filter_cons, hq, alookup, hk]
        exact ih hnd.2

theorem filter_keys_nodup {α : Type} {l : List (String × α)} (q : String × α → Bool)
    (hnd : (l.map Prod.fst).Nodup) : ((l.filter q).map Prod.fst).Nodup := by
  have hsub : List.Sublist ((l.filter q).map Prod.fst) (l.map Prod.fst) :=
    List.Sublist.map Prod.fst (List.filter_sublist l)
  exact hnd.sublist hsub

/-!  ## `TaskQueue` (the local, in-memory backend)

The Python methods are embedded as pure functions over the `Store`.
`uuid.uuid4()` and `time.time()` are external inputs: the generated task
identifier and the clock readings appear as parameters.  Each `time.time()`
call of the source is a distinct parameter where the source makes distinct
calls. -/

/-- Store effect of `TaskQueue.submit`: the freshly generated `task_id` is
mapped to a `PENDING` record whose `created_at` and `updated_at` come from
the two consecutive `time.time()` calls.  The source then schedules
`_execute_task` and returns `task_id`. -/
def submit {V : Type} (tasks : Store V) (task_id : String) (t1 t2 : Nat) : Store V :=
  (task_id, ⟨task_id, TaskStatus.pending, t1, t2, none, none⟩) :: tasks

/-- First phase of `TaskQueue._execute_task`: the unguarded mutations
`self._tasks[task_id].status = TaskStatus.PROCESSING` and
`self._tasks[task_id].updated_at = time.time()`.  A `none` result models the
`KeyError` these raise when the record is absent. -/
def execBegin {V : Type} (tasks : Store V) (task_id : String) (t : Nat) : Option (Store V) :=
  aupdate tasks task_id (fun tk => { tk with status := TaskStatus.processing, updated_at := t })

/-- Second phase of `TaskQueue._execute_task`, after the callable finished:
on a normal return the record becomes `COMPLETED` with the returned value as
`result`; on a raised failure (caught by `except Exception`) it becomes
`FAILED` with `str(e)` as `error`.  When the record is absent both branches
end in an unhandled `KeyError` (on the success path the `KeyError` from the
`COMPLETED` mutation is caught, but the `FAILED` mutation inside the handler
raises again), modelled as `none`. -/
def execFinish {V : Type} (tasks : Store V) (task_id : String) (oc : Outcome V) (t : Nat) :
    Option (Store V) :=
  match oc with
  | .ok r =>
      aupdate tasks task_id
        (fun tk => { tk with status := TaskStatus.completed, result := r, updated_at := t })
  | .raises e =>
      aupdate tasks task_id
        (fun tk => { tk with status := TaskStatus.failed, error := some e, updated_at := t })

/-- `TaskQueue._execute_task` run in one piece over an otherwise-quiescent
store: the `PROCESSING` transition at clock `t1`, the callable's outcome
`oc`, and the terminal transition at clock `t2`. -/
def execute_task {V : Type} (tasks : Store V) (task_id : String) (oc : Outcome V)
    (t1 t2 : Nat) : Option (Store V) :=
  (execBegin tasks task_id t1).bind (fun ts => execFinish ts task_id oc t2)

/-- `TaskQueue.get_task`: `self._tasks.get(task_id)`. -/
def get_task {V : Type} (tasks : Store V) (task_id : String) : Option (Task V) :=
  alookup tasks task_id

/-- `TaskQueue.get_task_status`: returns the record (the source renders it
with the field-preserving `Task.to_dict`) or `None` when absent. -/
def get_task_status {V : Type} (tasks : Store V) (task_id : String) : Option (Task V) :=
  match get_task tasks task_id with
  | some t => some t
  | none => none

/-- Store effect of `TaskQueue.cleanup_old_tasks`: drop every record with
`current_time - task.created_at > max_age` (strict comparison, truncated
subtraction — timestamps never exceed the clock in reachable states). -/
def cleanupStore {V : Type} (tasks : Store V) (current_time max_age : Nat) : Store V :=
  tasks.filter (fun p => decide (¬ current_time - p.2.created_at > max_age))

/-- `TaskQueue.cleanup_old_tasks` as called: its store effect together with
its return value.  The Python function logs `len(to_remove)` but ends
without a `return` statement, so the call evaluates to `None`, modelled as
`none`. -/
def cleanup_old_tasks {V : Type} (tasks : Store V) (current_time max_age : Nat) :
    Store V × Option Nat :=
  (cleanupStore tasks current_time max_age, none)

/-!  ## `RedisTaskQueue` (the shared-store backend)

The external key-value store is a mapping from keys to hashes of
string-valued fields (redis `hset`/`hgetall`).  `json` encoding is modelled
on the scalar texts this adapter actually writes at submission time. -/

/-- The external key-value store: key to hash of text fields. -/
abbrev RStore := List (String × List (String × String))

/-- Scalar JSON values, enough for the texts examined by this development. -/
inductive Jval
  | null
  | num (n : Nat)
  | str (s : String)
deriving DecidableEq

/-- Value of a digit string, most significant digit first. -/
def natOfDigits : List Char → Nat → Nat
  | [], acc => acc
  | c :: cs, acc => natOfDigits cs (acc * 10 + (c.toNat - 48))

/-- Modelled behaviour of Python `json.loads` on the scalar texts this
adapter stores: `"null"` parses to JSON null, digit strings parse to
numbers, quoted strings parse to strings, and anything else — in particular
`"None"`, the text `str(None)` that `RedisTaskQueue.submit` writes for the
`result` and `error` fields — is not valid JSON and raises, modelled as
`none`. -/
def json_loads (s : String) : Option Jval :=
  if s = "null" then some Jval.null
  else
    match s.data with
    | [] => none
    | c :: cs =>
        if (c :: cs).all Char.isDigit then some (Jval.num (natOfDigits (c :: cs) 0))
        else if c = '\"' ∧ cs.getLast? = some '\"' ∧ 1 ≤ cs.length then
          some (Jval.str (String.mk cs.dropLast))
        else none

/-- A decoded field value as `RedisTaskQueue.get_task_status` produces it:
either the decoded byte string or, for the `result` field, the parsed JSON
value. -/
inductive PyVal
  | str (s : String)
  | json (j : Jval)
deriving DecidableEq

/-- Result of `RedisTaskQueue.get_task_status` against a live store:
`notFound` models the early `return None` on an empty `hgetall`, `found`
models the decoded dictionary, and `raised` models an exception escaping the
decode comprehension. -/
inductive RResp
  | raised
  | notFound
  | found (fields : List (String × PyVal))
deriving DecidableEq

/-- The decode comprehension of `RedisTaskQueue.get_task_status`:
`json.loads(v) if k.decode() in ['result'] and v else v.decode()`.  A parse
failure on the `result` field aborts the whole call (`none`). -/
def decodeFields : List (String × String) → Option (List (String × PyVal))
  | [] => some []
  | (k, v) :: rest =>
      match (if k = "result" ∧ v ≠ "" then (json_loads v).map PyVal.json
             else some (PyVal.str v)) with
      | none => none
      | some pv => (decodeFields rest).map (fun r => (k, pv) :: r)

/-- Store effect of `RedisTaskQueue.submit` with a live connection: `hset`
of the per-field text encoding of the fresh `PENDING` record under the key
`"task:" ++ task_id`.  Non-dict values go through `str(...)`: the identifier
and status strings are kept, timestamps are rendered as text, and the
`None` placeholders for `result` and `error` become the text `"None"`. -/
def redis_submit (st : RStore) (task_id : String) (t1 t2 : Nat) : RStore :=
  ("task:" ++ task_id,
    [("id", task_id),
     ("status", "pending"),
     ("created_at", toString t1),
     ("updated_at", toString t2),
     ("result", "None"),
     ("error", "None")]) :: st

/-- `RedisTaskQueue.get_task_status` with a live connection: `hgetall` of
`"task:" ++ task_id`; an empty hash yields the not-found `None`, otherwise
the fields are decoded (which can raise). -/
def redis_get_task_status (st : RStore) (task_id : String) : RResp :=
  match alookup st ("task:" ++ task_id) with
  | none => RResp.notFound
  | some [] => RResp.notFound
  | some fields =>
      match decodeFields fields with
      | some out => RResp.found out
      | none => RResp.raised

/-- The state of a `RedisTaskQueue` after construction: either a live
connection holding an external store, or — after the liveness `ping` failed
— the embedded fallback `TaskQueue`. -/
inductive RQ (V : Type)
  | connected (st : RStore)
  | fb (lq : Store V)
deriving DecidableEq

/-- `RedisTaskQueue.__init__`: the constructor pings the external store;
on success it starts with a live empty connection, on any failure it
catches the exception (construction never raises) and installs an embedded
fallback `TaskQueue` with an empty store. -/
def redisTaskQueue_init (V : Type) (reachable : Bool) : RQ V :=
  if reachable then RQ.connected [] else RQ.fb []

/-- Store effect of `RedisTaskQueue.submit`: with `self._redis is None` the
call is delegated verbatim to the fallback `TaskQueue`; otherwise the
encoded record is written to the external store. -/
def rq_submit {V : Type} (q : RQ V) (task_id : String) (t1 t2 : Nat) : RQ V :=
  match q with
  | .fb lq => RQ.fb (submit lq task_id t1 t2)
  | .connected st => RQ.connected (redis_submit st task_id t1 t2)

/-- `RedisTaskQueue.get_task_status`: with `self._redis is None` the call is
delegated verbatim to the fallback `TaskQueue`; otherwise the external store
is consulted.  The sum keeps the two backends' response shapes apart. -/
def rq_get_task_status {V : Type} (q : RQ V) (task_id : String) :
    Sum (Option (Task V)) RResp :=
  match q with
  | .fb lq => Sum.inl (get_task_status lq task_id)
  | .connected st => Sum.inr (redis_get_task_status st task_id)

/-- A sequence of submissions (identifier and the two clock readings of
each), applied in order to a `RedisTaskQueue`. -/
def rq_run {V : Type} (q : RQ V) : List (String × Nat × Nat) → RQ V
  | [] => q
  | (task_id, t1, t2) :: rest => rq_run (rq_submit q task_id t1 t2) rest

/-- The same sequence of submissions applied to a local `TaskQueue` store. -/
def local_run {V : Type} (lq : Store V) : List (String × Nat × Nat) → Store V
  | [] => lq
  | (task_id, t1, t2) :: rest => local_run (submit lq task_id t1 t2) rest

/-!  ## Interleaved semantics of the local backend

`submit` hands each callable to the thread pool; its two store mutations in
`_execute_task` can interleave with further submissions and with
`cleanup_old_tasks`.  The system state combines the shared store, the
scheduled-but-unfinished executions (each at most one per submitted
identifier, since every submission schedules `_execute_task` exactly once
for a freshly generated uuid), the set of identifiers ever generated
(uuid4 values never repeat), and the last observed wall-clock value
(`time.time()` is assumed monotone). -/

/-- Scheduled executions: identifier to (callable outcome, whether the
`PROCESSING` phase has already run). -/
abbrev Jobs (V : Type) := List (String × (Outcome V × Bool))

/-- Global state: task store, scheduled executions, identifiers ever
generated, last observed clock. -/
structure Sys (V : Type) where
  tasks : Store V
  jobs : Jobs V
  used : List String
  clock : Nat
deriving DecidableEq

/-- The empty `TaskQueue` right after construction. -/
def init (V : Type) : Sys V := ⟨[], [], [], 0⟩

/-- One observable step of the system: a submission, the first or second
phase of some `_execute_task`, or a retention sweep.  Each action carries
the `time.time()` values its source reads. -/
inductive Action (V : Type)
  | submit (task_id : String) (oc : Outcome V) (t1 t2 : Nat)
  | start (task_id : String) (t : Nat)
  | finish (task_id : String) (t : Nat)
  | cleanup (max_age : Nat) (t : Nat)

/-- Small-step transition function.  `none` means the action is not enabled
in this state (no such scheduled execution, a stale clock reading, or a
uuid collision — impossible for uuid4).  A `start`/`finish` whose record has
been swept kills that execution with an uncaught `KeyError` inside the
worker, leaving the store untouched. -/
def step {V : Type} (s : Sys V) (a : Action V) : Option (Sys V) :=
  match a with
  | .submit task_id oc t1 t2 =>
      if s.clock ≤ t1 ∧ t1 ≤ t2 ∧ task_id ∉ s.used then
        some ⟨(task_id, ⟨task_id, TaskStatus.pending, t1, t2, none, none⟩) :: s.tasks,
              (task_id, (oc, false)) :: s.jobs,
              task_id :: s.used, t2⟩
      else none
  | .start task_id t =>
      if s.clock ≤ t then
        match alookup s.jobs task_id with
        | some (_, started) =>
            if started then none
            else
              match execBegin s.tasks task_id t with
              | some ts =>
                  (aupdate s.jobs task_id (fun jd => (jd.1, true))).map
                    (fun js => ⟨ts, js, s.used, t⟩)
              | none => some ⟨s.tasks, aerase s.jobs task_id, s.used, t⟩
        | none => none
      else none
  | .finish task_id t =>
      if s.clock ≤ t then
        match alookup s.jobs task_id with
        | some (oc, started) =>
            if started then
              match execFinish s.tasks task_id oc t with
              | some ts => some ⟨ts, aerase s.jobs task_id, s.used, t⟩
              | none => some ⟨s.tasks, aerase s.jobs task_id, s.used, t⟩
            else none
        | none => none
      else none
  | .cleanup max_age t =>
      if s.clock ≤ t then
        some ⟨cleanupStore s.tasks t max_age, s.jobs, s.used, t⟩
      else none

/-- States reachable from a freshly constructed `TaskQueue`. -/
inductive Reachable {V : Type} : Sys V → Prop
  | init : Reachable (init V)
  | step {s s' : Sys V} {a : Action V} : Reachable s → step s a = some s' → Reachable s'

/-- Field discipline of a single record: `result`/`error` as the source can
ever have written them in each status. -/
def FieldsOk {V : Type} (t : Task V) : Prop :=
  ((t.status = TaskStatus.pending ∨ t.status = TaskStatus.processing) →
      t.result = none ∧ t.error = none)
  ∧ (t.status = TaskStatus.completed → t.error = none)
  ∧ (t.status = TaskStatus.failed → t.error ≠ none ∧ t.result = none)

/-- Per-record invariant relative to the current clock. -/
def TaskOk {V : Type} (clock : Nat) (t : Task V) : Prop :=
  t.created_at ≤ t.updated_at ∧ t.updated_at ≤ clock ∧ FieldsOk t

/-- A scheduled execution and the record it belongs to agree: before its
`PROCESSING` phase the record (if still present) is `PENDING`, afterwards it
is `PROCESSING`. -/
def JobOk {V : Type} (tasks : Store V) (task_id : String) (jd : Outcome V × Bool) : Prop :=
  ∀ t, alookup tasks task_id = some t →
    t.status = (if jd.2 then TaskStatus.processing else TaskStatus.pending)

/-- System invariant: distinct keys, every key ever handed out is recorded,
all records well-formed, scheduled executions consistent with record
statuses, and records with no scheduled execution terminal. -/
def Inv {V : Type} (s : Sys V) : Prop :=
  (s.tasks.map Prod.fst).Nodup
  ∧ (s.jobs.map Prod.fst).Nodup
  ∧ (∀ task_id t, alookup s.tasks task_id = some t → task_id ∈ s.used ∧ TaskOk s.clock t)
  ∧ (∀ task_id jd, alookup s.jobs task_id = some jd →
      task_id ∈ s.used ∧ JobOk s.tasks task_id jd)
  ∧ (∀ task_id t, alookup s.tasks task_id = some t → alookup s.jobs task_id = none →
      t.status = TaskStatus.completed ∨ t.status = TaskStatus.failed)

theorem taskOk_mono {V : Type} {c c' : Nat} {t : Task V} (h : TaskOk c t) (hc : c ≤ c') :
    TaskOk c' t :=
  ⟨h.1, le_trans h.2.1 hc, h.2.2⟩

theorem inv_init (V : Type) : Inv (init V) := by
  refine ⟨?_, ?_, ?_, ?_, ?_⟩ <;> simp [init, Inv, alookup]

theorem alookup_aerase_self {α : Type} (l : List (String × α)) (k : String) :
    alookup (aerase l k) k = none := by
  induction l with
  | nil => simp [aerase]
  | cons p ps ih =>
    by_cases h : p.1 = k
    · simpa [aerase, List.filter_cons, h] using ih
    · simpa [aerase, List.filter_cons, h, alookup] using ih

theorem alookup_aerase_ne {α : Type} {l : List (String × α)} {k k' : String}
    (hne : k' ≠ k) : alookup (aerase l k) k' = alookup l k' := by
  induction l with
  | nil => simp [aerase]
  | cons p ps ih =>
    have hne' : ¬ k = k' := fun hh => hne hh.symm
    by_cases h : p.1 = k
    · simpa [aerase, List.filter_cons, h, alookup, hne'] using ih
    · by_cases hk' : p.1 = k'
      · simp [aerase, List.filter_cons, h, alookup, hk', hne]
      · simpa [aerase, List.filter_cons, h, alookup, hk'] using ih

theorem alookup_cleanupStore {V : Type} {tasks : Store V} {ct ma : Nat} {task_id : String}
    {tk : Task V} (hnd : (tasks.map Prod.fst).Nodup)
    (h : alookup (cleanupStore tasks ct ma) task_id = some tk) :
    alookup tasks task_id = some tk := by
  rcases alookup_filter (l := tasks) (k := task_id)
      (fun p => decide (¬ ct - p.2.created_at > ma)) hnd with hcase | hcase
  · rw [← hcase]
    exact h
  · rw [cleanupStore] at h
    rw [h] at hcase
    exact absurd hcase (by simp)

theorem execBegin_eq_none_iff {V : Type} (tasks : Store V) (task_id : String) (t : Nat) :
    execBegin tasks task_id t = none ↔ alookup tasks task_id = none := by
  simp [execBegin, aupdate_eq_none_iff]

theorem execFinish_eq_none_iff {V : Type} (tasks : Store V) (task_id : String)
    (oc : Outcome V) (t : Nat) :
    execFinish tasks task_id oc t = none ↔ alookup tasks task_id = none := by
  cases oc <;> simp [execFinish, aupdate_eq_none_iff]

theorem inv_submit {V : Type} {s s' : Sys V} {task_id : String} {oc : Outcome V} {t1 t2 : Nat}
    (hInv : Inv s) (h : step s (.submit task_id oc t1 t2) = some s') : Inv s' := by
  obtain ⟨hndT, hndJ, hT, hJ, hNoJob⟩ := hInv
  simp only [step] at h
  split at h
  case isFalse => exact absurd h (by simp)
  case isTrue hc =>
    obtain ⟨hct1, ht12, hfresh⟩ := hc
    have h' := Option.some.inj h
    subst h'
    have hlookT : alookup s.tasks task_id = none := by
      rcases hlt : alookup s.tasks task_id with _ | t
      · rfl
      · exact absurd (hT _ _ hlt).1 hfresh
    have hlookJ : alookup s.jobs task_id = none := by
      rcases hlj : alookup s.jobs task_id with _ | jd
      · rfl
      · exact absurd (hJ _ _ hlj).1 hfresh
    have hkeyT : task_id ∉ s.tasks.map Prod.fst := (alookup_eq_none_iff _ _).mp hlookT
    have hkeyJ : task_id ∉ s.jobs.map Prod.fst := (alookup_eq_none_iff _ _).mp hlookJ
    refine ⟨?_, ?_, ?_, ?_, ?_⟩
    · exact List.nodup_cons.mpr ⟨hkeyT, hndT⟩
    · exact List.nodup_cons.mpr ⟨hkeyJ, hndJ⟩
    · intro id t hl
      simp only [alookup_cons] at hl
      by_cases hid : task_id = id
      · rw [if_pos hid] at hl
        have ht := Option.some.inj hl
        subst ht
        subst hid
        exact ⟨List.mem_cons_self _ _, ht12, le_refl _, by simp [FieldsOk]⟩
      · rw [if_neg hid] at hl
        obtain ⟨hu, hok⟩ := hT _ _ hl
        exact ⟨List.mem_cons_of_mem _ hu, taskOk_mono hok (le_trans hct1 ht12)⟩
    · intro id jd hl
      simp only [alookup_cons] at hl
      by_cases hid : task_id = id
      · rw [if_pos hid] at hl
        have hjd := Option.some.inj hl
        subst hjd
        subst hid
        refine ⟨List.mem_cons_self _ _, ?_⟩
        intro t hlt
        simp only [alookup_cons, if_pos rfl] at hlt
        have := Option.some.inj hlt
        subst this
        simp
      · rw [if_neg hid] at hl
        obtain ⟨hu, hok⟩ := hJ _ _ hl
        refine ⟨List.mem_cons_of_mem _ hu, ?_⟩
        intro t hlt
        simp only [alookup_cons, if_neg hid] at hlt
        exact hok t hlt
    · intro id t hl hj
      simp only [alookup_cons] at hl hj
      by_cases hid : task_id = id
      · rw [if_pos hid] at hj
        exact absurd hj (by simp)
      · rw [if_neg hid] at hl hj
        exact hNoJob _ _ hl hj

theorem inv_start {V : Type} {s s' : Sys V} {task_id : String} {t : Nat}
    (hInv : Inv s) (h : step s (.start task_id t) = some s') : Inv s' := by
  obtain ⟨hndT, hndJ, hT, hJ, hNoJob⟩ := hInv
  simp only [step] at h
  split at h
  case isFalse => exact absurd h (by simp)
  case isTrue hct =>
    rcases halj : alookup s.jobs task_id with _ | ⟨oc0, started⟩
    · rw [halj] at h
      exact absurd h (by simp)
    · rw [halj] at h
      cases started with
      | true => exact absurd h (by simp)
      | false =>
        simp only [if_neg (Bool.false_ne_true)] at h
        rcases hexe : execBegin s.tasks task_id t with _ | ts
        · rw [hexe] at h
          have h' := Option.some.inj h
          subst h'
          have hlookT : alookup s.tasks task_id = none :=
            (execBegin_eq_none_iff _ _ _).mp hexe
          refine ⟨hndT, ?_, ?_, ?_, ?_⟩
          · exact filter_keys_nodup _ hndJ
          · intro id tk hl
            obtain ⟨hu, hok⟩ := hT _ _ hl
            exact ⟨hu, taskOk_mono hok hct⟩
          · intro id jd hl
            by_cases hid : id = task_id
            · subst hid
              rw [alookup_aerase_self] at hl
              exact absurd hl (by simp)
            · rw [alookup_aerase_ne hid] at hl
              exact hJ _ _ hl
          · intro id tk hl hj
            by_cases hid : id = task_id
            · subst hid
              rw [hlookT] at hl
              exact absurd hl (by simp)
            · rw [alookup_aerase_ne hid] at hj
              exact hNoJob _ _ hl hj
        · rw [hexe] at h
          rcases Option.map_eq_some'.mp h with ⟨js, hjs, hs'⟩
          rw [← hs']
          have hexe' : aupdate s.tasks task_id
              (fun tk => { tk with status := TaskStatus.processing, updated_at := t }) =
              some ts := by
            simpa [execBegin] using hexe
          have hkeysT := aupdate_keys hexe'
          have hlookSelf := alookup_aupdate_self hexe'
          have hlookNe : ∀ id, id ≠ task_id → alookup ts id = alookup s.tasks id :=
            fun id hid => alookup_aupdate_ne hexe' hid
          have hjkeys := aupdate_keys hjs
          have hjSelf := alookup_aupdate_self hjs
          have hjNe : ∀ id, id ≠ task_id → alookup js id = alookup s.jobs id :=
            fun id hid => alookup_aupdate_ne hjs hid
          refine ⟨?_, ?_, ?_, ?_, ?_⟩
          · rw [hkeysT]
            exact hndT
          · rw [hjkeys]
            exact hndJ
          · intro id tk hl
            by_cases hid : id = task_id
            · subst hid
              rw [hlookSelf] at hl
              rcases hl0 : alookup s.tasks id with _ | t0
              · rw [hl0] at hl
                exact absurd hl (by simp)
              · rw [hl0] at hl
                have htk := Option.some.inj hl
                obtain ⟨hu, hok⟩ := hT _ _ hl0
                have hstat : t0.status = TaskStatus.pending := by
                  have := (hJ _ _ halj).2 t0 hl0
                  simpa using this
                have hfld := hok.2.2.1 (Or.inl hstat)
                refine ⟨hu, ?_⟩
                rw [← htk]
                exact ⟨le_trans hok.1 hok.2.1 |>.trans hct, le_refl _, by
                  refine ⟨fun _ => ⟨hfld.1, hfld.2⟩, fun hc => ?_, fun hc => ?_⟩ <;>
                    simp at hc⟩
            · rw [hlookNe id hid] at hl
              obtain ⟨hu, hok⟩ := hT _ _ hl
              exact ⟨hu, taskOk_mono hok hct⟩
          · intro id jd hl
            by_cases hid : id = task_id
            · subst hid
              rw [hjSelf, halj] at hl
              have hjd := Option.some.inj hl
              refine ⟨(hJ _ _ halj).1, ?_⟩
              intro tk hlt
              rw [hlookSelf] at hlt
              rcases hl0 : alookup s.tasks id with _ | t0
              · rw [hl0] at hlt
                exact absurd hlt (by simp)
              · rw [hl0] at hlt
                have htk := Option.some.inj hlt
                rw [← htk, ← hjd]
                simp
            · rw [hjNe id hid] at hl
              obtain ⟨hu, hok⟩ := hJ _ _ hl
              refine ⟨hu, ?_⟩
              intro tk hlt
              rw [hlookNe id hid] at hlt
              exact hok tk hlt
          · intro id tk hl hj
            by_cases hid : id = task_id
            · subst hid
              rw [hjSelf, halj] at hj
              exact absurd hj (by simp)
            · rw [hlookNe id hid] at hl
              rw [hjNe id hid] at hj
              exact hNoJob _ _ hl hj

theorem inv_finish {V : Type} {s s' : Sys V} {task_id : String} {t : Nat}
    (hInv : Inv s) (h : step s (.finish task_id t) = some s') : Inv s' := by
  obtain ⟨hndT, hndJ, hT, hJ, hNoJob⟩ := hInv
  simp only [step] at h
  split at h
  case isFalse => exact absurd h (by simp)
  case isTrue hct =>
    rcases halj : alookup s.jobs task_id with _ | ⟨oc0, started⟩
    · rw [halj] at h
      exact absurd h (by simp)
    · rw [halj] at h
      cases started with
      | false => exact absurd h (by simp)
      | true =>
        simp only [if_pos rfl] at h
        rcases hexe : execFinish s.tasks task_id oc0 t with _ | ts
        · rw [hexe] at h
          have h' := Option.some.inj h
          subst h'
          have hlookT : alookup s.tasks task_id = none :=
            (execFinish_eq_none_iff _ _ _ _).mp hexe
          refine ⟨hndT, filter_keys_nodup _ hndJ, ?_, ?_, ?_⟩
          · intro id tk hl
            obtain ⟨hu, hok⟩ := hT _ _ hl
            exact ⟨hu, taskOk_mono hok hct⟩
          · intro id jd hl
            by_cases hid : id = task_id
            · subst hid
              rw [alookup_aerase_self] at hl
              exact absurd hl (by simp)
            · rw [alookup_aerase_ne hid] at hl
              exact hJ _ _ hl
          · intro id tk hl hj
            by_cases hid : id = task_id
            · subst hid
              rw [hlookT] at hl
              exact absurd hl (by simp)
            · rw [alookup_aerase_ne hid] at hj
              exact hNoJob _ _ hl hj
        · rw [hexe] at h
          have h' := Option.some.inj h
          subst h'
          have hstat0 : ∀ t0, alookup s.tasks task_id = some t0 →
              t0.status = TaskStatus.processing := by
            intro t0 hl0
            have := (hJ _ _ halj).2 t0 hl0
            simpa using this
          have hup : ∃ f : Task V → Task V,
              aupdate s.tasks task_id f = some ts ∧
              (∀ t0, t0.status = TaskStatus.processing → FieldsOk t0 →
                t0.created_at ≤ t0.updated_at → t0.updated_at ≤ s.clock →
                TaskOk t ((f t0)) ∧
                ((f t0).status = TaskStatus.completed ∨ (f t0).status = TaskStatus.failed)) := by
            cases oc0 with
            | ok r =>
              refine ⟨_, by simpa [execFinish] using hexe, ?_⟩
              intro t0 hst hfld hcu huc
              have hre := hfld.1 (Or.inr hst)
              refine ⟨⟨le_trans hcu (le_trans huc hct), le_refl _, ?_⟩, Or.inl rfl⟩
              exact ⟨fun hc => by simp at hc, fun _ => hre.2, fun hc => by simp at hc⟩
            | raises e =>
              refine ⟨_, by simpa [execFinish] using hexe, ?_⟩
              intro t0 hst hfld hcu huc
              have hre := hfld.1 (Or.inr hst)
              refine ⟨⟨le_trans hcu (le_trans huc hct), le_refl _, ?_⟩, Or.inr rfl⟩
              exact ⟨fun hc => by simp at hc, fun hc => by simp at hc,
                fun _ => ⟨by simp, hre.1⟩⟩
          obtain ⟨f, hupd, hf⟩ := hup
          have hkeysT := aupdate_keys hupd
          have hlookSelf := alookup_aupdate_self hupd
          have hlookNe : ∀ id, id ≠ task_id → alookup ts id = alookup s.tasks id :=
            fun id hid => alookup_aupdate_ne hupd hid
          refine ⟨?_, filter_keys_nodup _ hndJ, ?_, ?_, ?_⟩
          · rw [hkeysT]
            exact hndT
          · intro id tk hl
            by_cases hid : id = task_id
            · subst hid
              rw [hlookSelf] at hl
              rcases hl0 : alookup s.tasks id with _ | t0
              · rw [hl0] at hl
                exact absurd hl (by simp)
              · rw [hl0] at hl
                have htk := Option.some.inj hl
                obtain ⟨hu, hok⟩ := hT _ _ hl0
                have := hf t0 (hstat0 t0 hl0) hok.2.2 hok.1 hok.2.1
                rw [← htk]
                exact ⟨hu, this.1⟩
            · rw [hlookNe id hid] at hl
              obtain ⟨hu, hok⟩ := hT _ _ hl
              exact ⟨hu, taskOk_mono hok hct⟩
          · intro id jd hl
            by_cases hid : id = task_id
            · subst hid
              rw [alookup_aerase_self] at hl
              exact absurd hl (by simp)
            · rw [alookup_aerase_ne hid] at hl
              obtain ⟨hu, hok⟩ := hJ _ _ hl
              refine ⟨hu, ?_⟩
              intro tk hlt
              rw [hlookNe id hid] at hlt
              exact hok tk hlt
          · intro id tk hl hj
            by_cases hid : id = task_id
            · subst hid
              rw [hlookSelf] at hl
              rcases hl0 : alookup s.tasks id with _ | t0
              · rw [hl0] at hl
                exact absurd hl (by simp)
              · rw [hl0] at hl
                have htk := Option.some.inj hl
                obtain ⟨hu, hok⟩ := hT _ _ hl0
                have := hf t0 (hstat0 t0 hl0) hok.2.2 hok.1 hok.2.1
                rw [← htk]
                exact this.2
            · rw [hlookNe id hid] at hl
              rw [alookup_aerase_ne hid] at hj
              exact hNoJob _ _ hl hj

theorem inv_cleanup {V : Type} {s s' : Sys V} {max_age t : Nat}
    (hInv : Inv s) (h : step s (.cleanup max_age t) = some s') : Inv s' := by
  obtain ⟨hndT, hndJ, hT, hJ, hNoJob⟩ := hInv
  simp only [step] at h
  split at h
  case isFalse => exact absurd h (by simp)
  case isTrue hct =>
    have h' := Option.some.inj h
    subst h'
    refine ⟨filter_keys_nodup _ hndT, hndJ, ?_, ?_, ?_⟩
    · intro id tk hl
      have hl0 := alookup_cleanupStore hndT hl
      obtain ⟨hu, hok⟩ := hT _ _ hl0
      exact ⟨hu, taskOk_mono hok hct⟩
    · intro id jd hl
      obtain ⟨hu, hok⟩ := hJ _ _ hl
      refine ⟨hu, ?_⟩
      intro tk hlt
      exact hok tk (alookup_cleanupStore hndT hlt)
    · intro id tk hl hj
      exact hNoJob _ _ (alookup_cleanupStore hndT hl) hj

theorem inv_step {V : Type} {s s' : Sys V} {a : Action V}
    (hInv : Inv s) (h : step s a = some s') : Inv s' := by
  cases a with
  | submit task_id oc t1 t2 => exact inv_submit hInv h
  | start task_id t => exact inv_start hInv h
  | finish task_id t => exact inv_finish hInv h
  | cleanup max_age t => exact inv_cleanup hInv h

theorem reachable_inv {V : Type} {s : Sys V} (h : Reachable s) : Inv s := by
  induction h with
  | init => exact inv_init V
  | step _ hstep ih => exact inv_step ih hstep

/-- Case analysis of what one step can do to the record stored under a
fixed identifier: leave it alone, create it `PENDING`, advance it
`PENDING → PROCESSING`, advance it `PROCESSING → COMPLETED`/`FAILED`
(refreshing `updated_at` with a clock value no older than the previous
one), or remove it. -/
theorem step_lookup {V : Type} {s s' : Sys V} {a : Action V}
    (hInv : Inv s) (hs : step s a = some s') (id : String) :
    alookup s'.tasks id = alookup s.tasks id
  ∨ (alookup s.tasks id = none ∧ ∃ c u, c ≤ u ∧
       alookup s'.tasks id = some ⟨id, TaskStatus.pending, c, u, none, none⟩)
  ∨ (∃ t0 u, alookup s.tasks id = some t0 ∧ t0.status = TaskStatus.pending ∧
       t0.updated_at ≤ u ∧
       alookup s'.tasks id =
         some { t0 with status := TaskStatus.processing, updated_at := u })
  ∨ (∃ t0 u r, alookup s.tasks id = some t0 ∧ t0.status = TaskStatus.processing ∧
       t0.updated_at ≤ u ∧
       alookup s'.tasks id =
         some { t0 with status := TaskStatus.completed, result := r, updated_at := u })
  ∨ (∃ t0 u e, alookup s.tasks id = some t0 ∧ t0.status = TaskStatus.processing ∧
       t0.updated_at ≤ u ∧
       alookup s'.tasks id =
         some { t0 with status := TaskStatus.failed, error := some e, updated_at := u })
  ∨ alookup s'.tasks id = none := by
  obtain ⟨hndT, hndJ, hT, hJ, hNoJob⟩ := hInv
  cases a with
  | submit task_id oc t1 t2 =>
    simp only [step] at hs
    split at hs
    case isFalse => exact absurd hs (by simp)
    case isTrue hc =>
      obtain ⟨hct1, ht12, hfresh⟩ := hc
      have hs' := Option.some.inj hs
      subst hs'
      by_cases hid : task_id = id
      · subst hid
        have hlookT : alookup s.tasks task_id = none := by
          rcases hlt : alookup s.tasks task_id with _ | t
          · rfl
          · exact absurd (hT _ _ hlt).1 hfresh
        refine Or.inr (Or.inl ⟨hlookT, t1, t2, ht12, ?_⟩)
        simp [alookup]
      · left
        simp [alookup, hid]
  | start task_id t =>
    simp only [step] at hs
    split at hs
    case isFalse => exact absurd hs (by simp)
    case isTrue hct =>
      rcases halj : alookup s.jobs task_id with _ | ⟨oc0, started⟩
      · rw [halj] at hs
        exact absurd hs (by simp)
      · rw [halj] at hs
        cases started with
        | true => exact absurd hs (by simp)
        | false =>
          simp only [if_neg (Bool.false_ne_true)] at hs
          rcases hexe : execBegin s.tasks task_id t with _ | ts
          · rw [hexe] at hs
            have hs' := Option.some.inj hs
            subst hs'
            left
            rfl
          · rw [hexe] at hs
            rcases Option.map_eq_some'.mp hs with ⟨js, _, hs'⟩
            rw [← hs']
            have hupd : aupdate s.tasks task_id
                (fun tk => { tk with status := TaskStatus.processing, updated_at := t }) =
                some ts := by simpa [execBegin] using hexe
            by_cases hid : id = task_id
            · subst hid
              rcases hl0 : alookup s.tasks id with _ | t0
              · left
                show alookup ts id = _
                rw [alookup_aupdate_self hupd, hl0]
                rfl
              · have hstat : t0.status = TaskStatus.pending := by
                  have := (hJ _ _ halj).2 t0 hl0
                  simpa using this
                have hok := (hT _ _ hl0).2
                refine Or.inr (Or.inr (Or.inl ⟨t0, t, rfl, hstat, ?_, ?_⟩))
                · exact le_trans hok.2.1 hct
                · show alookup ts id = _
                  rw [alookup_aupdate_self hupd, hl0]
                  rfl
            · left
              exact alookup_aupdate_ne hupd hid
  | finish task_id t =>
    simp only [step] at hs
    split at hs
    case isFalse => exact absurd hs (by simp)
    case isTrue hct =>
      rcases halj : alookup s.jobs task_id with _ | ⟨oc0, started⟩
      · rw [halj] at hs
        exact absurd hs (by simp)
      · rw [halj] at hs
        cases started with
        | false => exact absurd hs (by simp)
        | true =>
          simp only [if_pos rfl] at hs
          rcases hexe : execFinish s.tasks task_id oc0 t with _ | ts
          · rw [hexe] at hs
            have hs' := Option.some.inj hs
            subst hs'
            left
            rfl
          · rw [hexe] at hs
            have hs' := Option.some.inj hs
            subst hs'
            by_cases hid : id = task_id
            · subst hid
              rcases hl0 : alookup s.tasks id with _ | t0
              · rw [(execFinish_eq_none_iff _ _ _ _).mpr hl0] at hexe
                exact absurd hexe (by simp)
              · have hstat : t0.status = TaskStatus.processing := by
                  have := (hJ _ _ halj).2 t0 hl0
                  simpa using this
                have hok := (hT _ _ hl0).2
                have hu : t0.updated_at ≤ t := le_trans hok.2.1 hct
                cases oc0 with
                | ok r =>
                  have hupd : aupdate s.tasks id (fun tk => { tk with status := TaskStatus.completed, result := r, updated_at := t }) = some ts := by
                    simpa [execFinish] using hexe
                  refine Or.inr (Or.inr (Or.inr (Or.inl ⟨t0, t, r, rfl, hstat, hu, ?_⟩)))
                  show alookup ts id = _
                  rw [alookup_aupdate_self hupd, hl0]
                  rfl
                | raises e =>
                  have hupd : aupdate s.tasks id (fun tk => { tk with status := TaskStatus.failed, error := some e, updated_at := t }) = some ts := by
                    simpa [execFinish] using hexe
                  refine Or.inr (Or.inr (Or.inr (Or.inr (Or.inl
                    ⟨t0, t, e, rfl, hstat, hu, ?_⟩))))
                  show alookup ts id = _
                  rw [alookup_aupdate_self hupd, hl0]
                  rfl
            · left
              cases oc0 with
              | ok r =>
                exact alookup_aupdate_ne (by simpa [execFinish] using hexe) hid
              | raises e =>
                exact alookup_aupdate_ne (by simpa [execFinish] using hexe) hid
  | cleanup max_age t =>
    simp only [step] at hs
    split at hs
    case isFalse => exact absurd hs (by simp)
    case isTrue hct =>
      have hs' := Option.some.inj hs
      subst hs'
      rcases alookup_filter (l := s.tasks) (k := id)
          (fun p => decide (¬ t - p.2.created_at > max_age)) hndT with hcase | hcase
      · left
        exact hcase
      · right; right; right; right; right
        exact hcase

theorem alookup_filter_eq {α : Type} {l : List (String × α)} {k : String}
    (q : String × α → Bool) (hnd : (l.map Prod.fst).Nodup) :
    alookup (l.filter q) k =
      (alookup l k).bind (fun v => if q (k, v) then some v else none) := by
  induction l with
  | nil => simp
  | cons p ps ih =>
    simp only [List.map_cons, List.nodup_cons] at hnd
    by_cases h : p.1 = k
    · have hp : (k, p.2) = p := by
        rw [← h]
      by_cases hq : q p
      · simp [List.filter_cons, hq, alookup, h, hp]
      · have hnone : alookup ps k = none := by
          rw [alookup_eq_none_iff, ← h]
          exact hnd.1
        simp [List.filter_cons, hq, alookup, h, hp, alookup_filter_none q hnone]
    · by_cases hq : q p
      · simp only [List.filter_cons, hq, if_true, alookup_cons, if_neg h]
        exact ih hnd.2
      · simp only [List.filter_cons, hq, Bool.false_eq_true, if_false, alookup_cons, if_neg h]
        exact ih hnd.2

/-- C3 (amended form shared with the claim as stated): on a normal return of
the callable, `_execute_task` drives the still-present record to `COMPLETED`
with the returned value as `result`, `error` left unset, `created_at`
untouched, and `updated_at` refreshed. -/
theorem execute_task_ok_records_completion {V : Type} {tasks : Store V} {task_id : String}
    {t0 : Task V} (r : Option V) (t1 t2 : Nat)
    (hl : alookup tasks task_id = some t0) (herr : t0.error = none) :
    ∃ ts, execute_task tasks task_id (Outcome.ok r) t1 t2 = some ts ∧
      alookup ts task_id =
        some ⟨t0.id, TaskStatus.completed, t0.created_at, t2, r, none⟩ := by
  rcases hb : execBegin tasks task_id t1 with _ | ts1
  · rw [execBegin_eq_none_iff, hl] at hb
    exact absurd hb (by simp)
  · have hupd1 : aupdate tasks task_id
        (fun tk => { tk with status := TaskStatus.processing, updated_at := t1 }) =
        some ts1 := by
      simpa [execBegin] using hb
    have hl1 : alookup ts1 task_id =
        some { t0 with status := TaskStatus.processing, updated_at := t1 } := by
      rw [alookup_aupdate_self hupd1, hl]
      rfl
    rcases hf : execFinish ts1 task_id (Outcome.ok r) t2 with _ | ts2
    · have := (execFinish_eq_none_iff _ _ _ _).mp hf
      rw [hl1] at this
      exact absurd this (by simp)
    · have hupd2 : aupdate ts1 task_id
          (fun tk => { tk with status := TaskStatus.completed, result := r, updated_at := t2 }) =
          some ts2 := by
        simpa [execFinish] using hf
      refine ⟨ts2, ?_, ?_⟩
      · simp [execute_task, hb, hf]
      · rw [alookup_aupdate_self hupd2, hl1]
        simp only [Option.map_some']
        rw [← herr]

/-- C1 (amended): on a raised failure from the callable, `_execute_task`
drives the still-present record to `FAILED` with `str(e)` — which is empty
exactly when the failure's description is empty — stored as `error`,
`result` left unset, and the wrapper itself returns normally (the failure
is contained, never propagated to the pool or the submitter). -/
theorem execute_task_raises_records_failure {V : Type} {tasks : Store V} {task_id : String}
    {t0 : Task V} (e : String) (t1 t2 : Nat)
    (hl : alookup tasks task_id = some t0) (hres : t0.result = none) :
    ∃ ts, execute_task tasks task_id (Outcome.raises e) t1 t2 = some ts ∧
      alookup ts task_id =
        some ⟨t0.id, TaskStatus.failed, t0.created_at, t2, none, some e⟩ := by
  rcases hb : execBegin tasks task_id t1 with _ | ts1
  · rw [execBegin_eq_none_iff, hl] at hb
    exact absurd hb (by simp)
  · have hupd1 : aupdate tasks task_id
        (fun tk => { tk with status := TaskStatus.processing, updated_at := t1 }) =
        some ts1 := by
      simpa [execBegin] using hb
    have hl1 : alookup ts1 task_id =
        some { t0 with status := TaskStatus.processing, updated_at := t1 } := by
      rw [alookup_aupdate_self hupd1, hl]
      rfl
    rcases hf : execFinish ts1 task_id (Outcome.raises e) t2 with _ | ts2
    · have := (execFinish_eq_none_iff _ _ _ _).mp hf
      rw [hl1] at this
      exact absurd this (by simp)
    · have hupd2 : aupdate ts1 task_id
          (fun tk => { tk with status := TaskStatus.failed, error := some e, updated_at := t2 }) =
          some ts2 := by
        simpa [execFinish] using hf
      refine ⟨ts2, ?_, ?_⟩
      · simp [execute_task, hb, hf]
      · rw [alookup_aupdate_self hupd2, hl1]
        simp only [Option.map_some']
        rw [← hres]

/-- Witness for the amended C1 at a concrete input: a callable raising a
failure described by "boom" against a freshly submitted record. -/
theorem execute_task_raises_records_failure_witness :
    ∃ ts, execute_task [("a", (⟨"a", TaskStatus.pending, 0, 0, none, none⟩ : Task Nat))] "a"
        (Outcome.raises "boom") 1 2 = some ts ∧
      alookup ts "a" = some ⟨"a", TaskStatus.failed, 0, 2, none, some "boom"⟩ :=
  @execute_task_raises_records_failure Nat
    [("a", ⟨"a", TaskStatus.pending, 0, 0, none, none⟩)] "a"
    ⟨"a", TaskStatus.pending, 0, 0, none, none⟩ "boom" 1 2 (by rfl) (by rfl)

/-- Counterexample to C1 as stated: a callable raising a failure with an
empty description (Python `raise Exception()`, where `str(e) = ""`) yields a
`FAILED` record whose stored `error` is the empty string — not a non-empty
`error` as the claim demands. -/
theorem failed_error_can_be_empty :
    execute_task [("a", (⟨"a", TaskStatus.pending, 0, 0, none, none⟩ : Task Nat))] "a"
        (Outcome.raises "") 1 2 =
      some [("a", ⟨"a", TaskStatus.failed, 0, 2, none, some ""⟩)]
    ∧ ("" : String).length = 0 := by
  constructor
  · rfl
  · rfl

/-- Witness for C3 at a concrete input: a callable returning the value `7`
against a freshly submitted record. -/
theorem execute_task_ok_records_completion_witness :
    ∃ ts, execute_task [("a", (⟨"a", TaskStatus.pending, 0, 0, none, none⟩ : Task Nat))] "a"
        (Outcome.ok (some 7)) 1 2 = some ts ∧
      alookup ts "a" = some ⟨"a", TaskStatus.completed, 0, 2, some 7, none⟩ :=
  @execute_task_ok_records_completion Nat
    [("a", ⟨"a", TaskStatus.pending, 0, 0, none, none⟩)] "a"
    ⟨"a", TaskStatus.pending, 0, 0, none, none⟩ (some 7) 1 2 (by rfl) (by rfl)

/-- C10: `_execute_task` indexes `self._tasks[task_id]` without a guarded
lookup, so when the record is absent (e.g. removed by the retention sweep)
each phase faults with a `KeyError` and records no outcome; conversely the
wrapper is fault-free whenever the record is present throughout. -/
theorem execute_task_requires_record_present {V : Type} (tasks : Store V) (task_id : String)
    (oc : Outcome V) (t1 t2 : Nat) :
    (alookup tasks task_id = none →
      execBegin tasks task_id t1 = none ∧ execFinish tasks task_id oc t2 = none ∧
      execute_task tasks task_id oc t1 t2 = none)
    ∧ ((alookup tasks task_id).isSome → (execute_task tasks task_id oc t1 t2).isSome) := by
  constructor
  · intro h
    refine ⟨(execBegin_eq_none_iff _ _ _).mpr h, (execFinish_eq_none_iff _ _ _ _).mpr h, ?_⟩
    simp [execute_task, (execBegin_eq_none_iff _ _ _).mpr h]
  · intro h
    rcases hb : execBegin tasks task_id t1 with _ | ts1
    · rw [execBegin_eq_none_iff] at hb
      rw [hb] at h
      simp at h
    · have hupd1 : aupdate tasks task_id
          (fun tk => { tk with status := TaskStatus.processing, updated_at := t1 }) =
          some ts1 := by
        simpa [execBegin] using hb
      have hl1 : (alookup ts1 task_id).isSome := by
        rw [alookup_aupdate_self hupd1]
        simpa using h
      rcases hf : execFinish ts1 task_id oc t2 with _ | ts2
      · rw [execFinish_eq_none_iff] at hf
        rw [hf] at hl1
        simp at hl1
      · simp [execute_task, hb, hf]

/-- Witness for C10 at a concrete input: the wrapper run against an empty
store (the record already swept) faults and records nothing. -/
theorem execute_task_requires_record_present_witness :
    execute_task ([] : Store Nat) "a" (Outcome.ok none) 1 2 = none :=
  ((execute_task_requires_record_present [] "a" (Outcome.ok none) 1 2).1 rfl).2.2

/-- C2: across any enabled step of the system, the record stored under a
fixed identifier either keeps its status or advances along an edge of
`PENDING → PROCESSING → COMPLETED | FAILED`; in particular a record in a
terminal state never changes status, and a record that first appears does
so as `PENDING`.  Hence every per-task status history is a subsequence of
`PENDING, PROCESSING, COMPLETED` or `PENDING, PROCESSING, FAILED`. -/
theorem status_transitions_follow_lifecycle {V : Type} {s s' : Sys V} {a : Action V}
    (hR : Reachable s) (hs : step s a = some s') (task_id : String) :
    (∀ t t', alookup s.tasks task_id = some t → alookup s'.tasks task_id = some t' →
        t'.status = t.status
      ∨ (t.status = TaskStatus.pending ∧ t'.status = TaskStatus.processing)
      ∨ (t.status = TaskStatus.processing ∧
          (t'.status = TaskStatus.completed ∨ t'.status = TaskStatus.failed)))
    ∧ (∀ t', alookup s.tasks task_id = none → alookup s'.tasks task_id = some t' →
        t'.status = TaskStatus.pending) := by
  have hInv := reachable_inv hR
  have hcases := step_lookup hInv hs task_id
  constructor
  · intro t t' hl hl'
    rcases hcases with hc | ⟨hn, _⟩ | ⟨t0, u, h0, hst, _, h1⟩ | ⟨t0, u, r, h0, hst, _, h1⟩ |
      ⟨t0, u, e, h0, hst, _, h1⟩ | hc
    · rw [hl', hl] at hc
      have := Option.some.inj hc
      left
      rw [this]
    · rw [hn] at hl
      exact absurd hl (by simp)
    · rw [h0] at hl
      rw [h1] at hl'
      have ht := Option.some.inj hl
      have ht' := Option.some.inj hl'
      right; left
      rw [← ht, ← ht']
      exact ⟨hst, rfl⟩
    · rw [h0] at hl
      rw [h1] at hl'
      have ht := Option.some.inj hl
      have ht' := Option.some.inj hl'
      right; right
      rw [← ht, ← ht']
      exact ⟨hst, Or.inl rfl⟩
    · rw [h0] at hl
      rw [h1] at hl'
      have ht := Option.some.inj hl
      have ht' := Option.some.inj hl'
      right; right
      rw [← ht, ← ht']
      exact ⟨hst, Or.inr rfl⟩
    · rw [hc] at hl'
      exact absurd hl' (by simp)
  · intro t' hn hl'
    rcases hcases with hc | ⟨_, c, u, _, h1⟩ | ⟨t0, u, h0, _, _, _⟩ | ⟨t0, u, r, h0, _, _, _⟩ |
      ⟨t0, u, e, h0, _, _, _⟩ | hc
    · rw [hc, hn] at hl'
      exact absurd hl' (by simp)
    · rw [h1] at hl'
      have := Option.some.inj hl'
      rw [← this]
    · rw [h0] at hn
      exact absurd hn (by simp)
    · rw [h0] at hn
      exact absurd hn (by simp)
    · rw [h0] at hn
      exact absurd hn (by simp)
    · rw [hc] at hl'
      exact absurd hl' (by simp)

/-- C9: timestamps are coherent across every enabled step: every stored
record satisfies `created_at ≤ updated_at` before and after the step, and
for a record present on both sides the step never modifies `created_at`
and never decreases `updated_at`. -/
theorem timestamps_are_monotone {V : Type} {s s' : Sys V} {a : Action V}
    (hR : Reachable s) (hs : step s a = some s') (task_id : String) :
    (∀ t, alookup s.tasks task_id = some t → t.created_at ≤ t.updated_at)
    ∧ (∀ t', alookup s'.tasks task_id = some t' → t'.created_at ≤ t'.updated_at)
    ∧ (∀ t t', alookup s.tasks task_id = some t → alookup s'.tasks task_id = some t' →
        t'.created_at = t.created_at ∧ t.updated_at ≤ t'.updated_at) := by
  have hInv := reachable_inv hR
  have hInv' := inv_step hInv hs
  refine ⟨?_, ?_, ?_⟩
  · intro t hl
    exact (hInv.2.2.1 _ _ hl).2.1
  · intro t' hl'
    exact (hInv'.2.2.1 _ _ hl').2.1
  · intro t t' hl hl'
    rcases step_lookup hInv hs task_id with hc | ⟨hn, _⟩ | ⟨t0, u, h0, _, hu, h1⟩ |
      ⟨t0, u, r, h0, _, hu, h1⟩ | ⟨t0, u, e, h0, _, hu, h1⟩ | hc
    · rw [hl', hl] at hc
      have := Option.some.inj hc
      rw [this]
      exact ⟨rfl, le_refl _⟩
    · rw [hn] at hl
      exact absurd hl (by simp)
    · rw [h0] at hl
      rw [h1] at hl'
      have ht := Option.some.inj hl
      have ht' := Option.some.inj hl'
      rw [← ht, ← ht']
      exact ⟨rfl, hu⟩
    · rw [h0] at hl
      rw [h1] at hl'
      have ht := Option.some.inj hl
      have ht' := Option.some.inj hl'
      rw [← ht, ← ht']
      exact ⟨rfl, hu⟩
    · rw [h0] at hl
      rw [h1] at hl'
      have ht := Option.some.inj hl
      have ht' := Option.some.inj hl'
      rw [← ht, ← ht']
      exact ⟨rfl, hu⟩
    · rw [hc] at hl'
      exact absurd hl' (by simp)

/-- C8 (amended): in every reachable state, `result` can be set only in
`COMPLETED` and `error` only in `FAILED`; before a terminal state neither is
set; a `FAILED` record has exactly `error` set; a `COMPLETED` record has
`error` unset (its `result` is the callable's returned value, which is unset
when that value was `None`). -/
theorem record_field_discipline {V : Type} {s : Sys V} {task_id : String} {t : Task V}
    (hR : Reachable s) (hl : alookup s.tasks task_id = some t) :
    ((t.status = TaskStatus.pending ∨ t.status = TaskStatus.processing) →
        t.result = none ∧ t.error = none)
    ∧ (t.status = TaskStatus.completed → t.error = none)
    ∧ (t.status = TaskStatus.failed → t.error ≠ none ∧ t.result = none) := by
  have hInv := reachable_inv hR
  exact (hInv.2.2.1 _ _ hl).2.2.2

/-- Counterexample to C8 as stated: a callable whose normal return value is
Python `None` reaches the terminal state `COMPLETED` with *neither* `result`
nor `error` set — not "exactly one of `result`/`error`". -/
theorem completed_none_result_has_neither_field :
    execute_task [("a", (⟨"a", TaskStatus.pending, 0, 0, none, none⟩ : Task Nat))] "a"
        (Outcome.ok none) 1 2 =
      some [("a", ⟨"a", TaskStatus.completed, 0, 2, none, none⟩)]
    ∧ (⟨"a", TaskStatus.completed, 0, 2, none, none⟩ : Task Nat).status = TaskStatus.completed
    ∧ (⟨"a", TaskStatus.completed, 0, 2, none, none⟩ : Task Nat).result = none
    ∧ (⟨"a", TaskStatus.completed, 0, 2, none, none⟩ : Task Nat).error = none := by
  refine ⟨rfl, rfl, rfl, rfl⟩

/-- State after submitting one task with identifier "a" at clock 0. -/
def sysW1 : Sys Nat :=
  ⟨[("a", ⟨"a", TaskStatus.pending, 0, 0, none, none⟩)],
   [("a", (Outcome.ok none, false))], ["a"], 0⟩

/-- State after the `PROCESSING` phase of that task ran at clock 1. -/
def sysW2 : Sys Nat :=
  ⟨[("a", ⟨"a", TaskStatus.processing, 0, 1, none, none⟩)],
   [("a", (Outcome.ok none, true))], ["a"], 1⟩

theorem sysW1_reachable : Reachable sysW1 :=
  Reachable.step Reachable.init
    (by decide : step (init Nat) (Action.submit "a" (Outcome.ok none) 0 0) = some sysW1)

/-- Witness for C2 at a concrete step: the `PENDING → PROCESSING` advance of
the submitted task "a". -/
theorem status_transitions_follow_lifecycle_witness :
    (⟨"a", TaskStatus.processing, 0, 1, none, none⟩ : Task Nat).status =
        (⟨"a", TaskStatus.pending, 0, 0, none, none⟩ : Task Nat).status
    ∨ ((⟨"a", TaskStatus.pending, 0, 0, none, none⟩ : Task Nat).status = TaskStatus.pending
        ∧ (⟨"a", TaskStatus.processing, 0, 1, none, none⟩ : Task Nat).status =
            TaskStatus.processing)
    ∨ ((⟨"a", TaskStatus.pending, 0, 0, none, none⟩ : Task Nat).status = TaskStatus.processing
        ∧ ((⟨"a", TaskStatus.processing, 0, 1, none, none⟩ : Task Nat).status =
              TaskStatus.completed
          ∨ (⟨"a", TaskStatus.processing, 0, 1, none, none⟩ : Task Nat).status =
              TaskStatus.failed)) :=
  (status_transitions_follow_lifecycle sysW1_reachable
      (by decide : step sysW1 (Action.start "a" 1) = some sysW2) "a").1
    ⟨"a", TaskStatus.pending, 0, 0, none, none⟩
    ⟨"a", TaskStatus.processing, 0, 1, none, none⟩ (by decide) (by decide)

/-- Witness for C9 at the same concrete step. -/
theorem timestamps_are_monotone_witness :
    (⟨"a", TaskStatus.processing, 0, 1, none, none⟩ : Task Nat).created_at =
        (⟨"a", TaskStatus.pending, 0, 0, none, none⟩ : Task Nat).created_at
    ∧ (⟨"a", TaskStatus.pending, 0, 0, none, none⟩ : Task Nat).updated_at ≤
        (⟨"a", TaskStatus.processing, 0, 1, none, none⟩ : Task Nat).updated_at :=
  (timestamps_are_monotone sysW1_reachable
      (by decide : step sysW1 (Action.start "a" 1) = some sysW2) "a").2.2
    ⟨"a", TaskStatus.pending, 0, 0, none, none⟩
    ⟨"a", TaskStatus.processing, 0, 1, none, none⟩ (by decide) (by decide)

/-- Witness for the amended C8 at a concrete reachable state: the freshly
submitted `PENDING` record has neither `result` nor `error` set. -/
theorem record_field_discipline_witness :
    (((⟨"a", TaskStatus.pending, 0, 0, none, none⟩ : Task Nat).status = TaskStatus.pending
        ∨ (⟨"a", TaskStatus.pending, 0, 0, none, none⟩ : Task Nat).status =
            TaskStatus.processing) →
      (⟨"a", TaskStatus.pending, 0, 0, none, none⟩ : Task Nat).result = none
        ∧ (⟨"a", TaskStatus.pending, 0, 0, none, none⟩ : Task Nat).error = none)
    ∧ ((⟨"a", TaskStatus.pending, 0, 0, none, none⟩ : Task Nat).status =
          TaskStatus.completed →
        (⟨"a", TaskStatus.pending, 0, 0, none, none⟩ : Task Nat).error = none)
    ∧ ((⟨"a", TaskStatus.pending, 0, 0, none, none⟩ : Task Nat).status = TaskStatus.failed →
        (⟨"a", TaskStatus.pending, 0, 0, none, none⟩ : Task Nat).error ≠ none
          ∧ (⟨"a", TaskStatus.pending, 0, 0, none, none⟩ : Task Nat).result = none) :=
  @record_field_discipline Nat sysW1 "a"
    ⟨"a", TaskStatus.pending, 0, 0, none, none⟩ sysW1_reachable (by decide)

/-- C4 (amended): `cleanup_old_tasks` removes exactly the records whose
`created_at` is strictly older than `max_age` relative to the current time,
regardless of status; the number removed is only logged, the call returns no
value; and after `cleanup(max_age=0)` a status query on any identifier whose
record was created at a strictly earlier timestamp returns not-found. -/
theorem cleanup_removes_exactly_older {V : Type} (tasks : Store V)
    (current_time max_age : Nat) (task_id : String)
    (hnd : (tasks.map Prod.fst).Nodup) :
    (cleanup_old_tasks tasks current_time max_age).2 = none
    ∧ alookup (cleanup_old_tasks tasks current_time max_age).1 task_id =
        (alookup tasks task_id).bind
          (fun t => if current_time - t.created_at > max_age then none else some t)
    ∧ (∀ t, alookup tasks task_id = some t → t.created_at < current_time →
        get_task_status (cleanup_old_tasks tasks current_time 0).1 task_id = none) := by
  have hchar : ∀ ma : Nat, alookup (cleanupStore tasks current_time ma) task_id =
      (alookup tasks task_id).bind
        (fun t => if current_time - t.created_at > ma then none else some t) := by
    intro ma
    rw [cleanupStore, alookup_filter_eq _ hnd]
    rcases alookup tasks task_id with _ | t
    · rfl
    · by_cases hgt : current_time - t.created_at > ma
      · simp [hgt]
        omega
      · simp [hgt]
        omega
  refine ⟨rfl, hchar max_age, ?_⟩
  intro t hl hlt
  have hgt : current_time - t.created_at > 0 := Nat.sub_pos_of_lt hlt
  have hnone : alookup (cleanupStore tasks current_time 0) task_id = none := by
    rw [hchar 0, hl]
    show (if current_time - t.created_at > 0 then none else some t) = (none : Option (Task V))
    rw [if_pos hgt]
  show get_task_status (cleanupStore tasks current_time 0) task_id = none
  unfold get_task_status get_task
  rw [hnone]

/-- Witness for the amended C4 at a concrete input: a record created at
time 3 is removed by a sweep at time 10 with `max_age` 5, and a query after
`cleanup(max_age=0)` at a strictly later time returns not-found. -/
theorem cleanup_removes_exactly_older_witness :
    (cleanup_old_tasks [("a", (⟨"a", TaskStatus.pending, 3, 3, none, none⟩ : Task Nat))]
        10 5).2 = none
    ∧ alookup (cleanup_old_tasks
          [("a", (⟨"a", TaskStatus.pending, 3, 3, none, none⟩ : Task Nat))] 10 5).1 "a" =
        (alookup [("a", (⟨"a", TaskStatus.pending, 3, 3, none, none⟩ : Task Nat))] "a").bind
          (fun t => if 10 - t.created_at > 5 then none else some t)
    ∧ (∀ t, alookup [("a", (⟨"a", TaskStatus.pending, 3, 3, none, none⟩ : Task Nat))] "a" =
          some t → t.created_at < 10 →
        get_task_status (cleanup_old_tasks
            [("a", (⟨"a", TaskStatus.pending, 3, 3, none, none⟩ : Task Nat))] 10 0).1 "a" =
          none) :=
  cleanup_removes_exactly_older
    [("a", (⟨"a", TaskStatus.pending, 3, 3, none, none⟩ : Task Nat))] 10 5 "a" (by decide)

/-- Counterexample to C4 as stated: in a reachable trace with a task
submitted at clock 5 and a sweep `cleanup(max_age=0)` running at the same
clock reading 5, the previously-submitted identifier is still found
afterwards (`5 - 5 > 0` is false, so the record survives the strict
comparison), and the call returns `None` rather than the number of records
removed. -/
theorem cleanup_keeps_same_instant_record_and_returns_none :
    ((step (init Nat) (Action.submit "a" (Outcome.ok none) 5 5)).bind
        (fun s => step s (Action.cleanup 0 5))).map (fun s => get_task_status s.tasks "a") =
      some (some ⟨"a", TaskStatus.pending, 5, 5, none, none⟩)
    ∧ (cleanup_old_tasks
        [("a", (⟨"a", TaskStatus.pending, 5, 5, none, none⟩ : Task Nat))] 5 0).2 = none := by
  constructor
  · decide
  · rfl

/-- C5: a status lookup for an identifier with no record is an explicit
not-found signal — never a placeholder record, never an exception — on the
local backend, on the live shared-store backend (empty `hgetall`, returned
before any decoding can raise), and on the fallen-back shared-store
backend. -/
theorem missing_task_yields_not_found {V : Type} (tasks : Store V) (st : RStore)
    (lq : Store V) (task_id : String)
    (h1 : alookup tasks task_id = none)
    (h2 : alookup st ("task:" ++ task_id) = none)
    (h3 : alookup lq task_id = none) :
    get_task_status tasks task_id = none
    ∧ redis_get_task_status st task_id = RResp.notFound
    ∧ rq_get_task_status (RQ.fb lq) task_id = Sum.inl none := by
  refine ⟨?_, ?_, ?_⟩
  · simp [get_task_status, get_task, h1]
  · simp [redis_get_task_status, h2]
  · simp [rq_get_task_status, get_task_status, get_task, h3]

/-- Witness for C5 at concrete inputs: empty stores on each backend. -/
theorem missing_task_yields_not_found_witness :
    get_task_status ([] : Store Nat) "a" = none
    ∧ redis_get_task_status [] "a" = RResp.notFound
    ∧ rq_get_task_status (RQ.fb ([] : Store Nat)) "a" = Sum.inl none :=
  missing_task_yields_not_found [] [] [] "a" rfl rfl rfl

/-- C6: construction with an unreachable shared store does not raise and
yields the fallback state holding an empty embedded local queue; every
subsequent `submit` and `get_task_status` on the fallback state is literal
delegation to the local `TaskQueue`, so any sequence of submissions from
construction onward leaves the adapter in lock-step with a local store and
answers every status query exactly as the local backend does. -/
theorem redis_unreachable_falls_back_to_local (V : Type) :
    redisTaskQueue_init V false = RQ.fb []
    ∧ (∀ (lq : Store V) (task_id : String) (t1 t2 : Nat),
        rq_submit (RQ.fb lq) task_id t1 t2 = RQ.fb (submit lq task_id t1 t2))
    ∧ (∀ (lq : Store V) (task_id : String),
        rq_get_task_status (RQ.fb lq) task_id = Sum.inl (get_task_status lq task_id))
    ∧ (∀ (ops : List (String × Nat × Nat)) (task_id : String),
        rq_run (redisTaskQueue_init V false) ops = RQ.fb (local_run [] ops)
        ∧ rq_get_task_status (rq_run (redisTaskQueue_init V false) ops) task_id =
            Sum.inl (get_task_status (local_run [] ops) task_id)) := by
  have key : ∀ (ops : List (String × Nat × Nat)) (lq : Store V),
      rq_run (RQ.fb lq) ops = RQ.fb (local_run lq ops) := by
    intro ops
    induction ops with
    | nil =>
      intro lq
      rfl
    | cons op rest ih =>
      intro lq
      rcases op with ⟨task_id, t1, t2⟩
      exact ih (submit lq task_id t1 t2)
  refine ⟨rfl, fun _ _ _ _ => rfl, fun _ _ => rfl, ?_⟩
  intro ops task_id
  constructor
  · exact key ops []
  · rw [show rq_run (redisTaskQueue_init V false) ops = RQ.fb (local_run [] ops) from
      key ops []]
    rfl

/-- C7 refuted (code bug): against a live shared store, a status lookup of a
task that is still `PENDING` does not return the record — it raises.
`submit` stored `str(None) = "None"` in the `result` field, and the decode
comprehension runs `json.loads` on that text, which is not valid JSON. -/
theorem redis_pending_status_lookup_raises :
    redis_get_task_status (redis_submit [] "a" 0 0) "a" = RResp.raised
    ∧ alookup (redis_submit [] "a" 0 0) ("task:" ++ "a") =
        some [("id", "a"), ("status", "pending"), ("created_at", "0"),
          ("updated_at", "0"), ("result", "None"), ("error", "None")]
    ∧ json_loads "None" = none := by
  refine ⟨?_, ?_, ?_⟩
  · decide
  · decide
  · decide

end DocIntel
